import Mathlib

/-!
Verification development for the LLM-response parsing / normalization pipeline
and the JSONL-backed ledger store of the AICanvas4ValueInvesting backend.

The Python sources embedded here are:
  - backend/utils/llm_json.py   (parse_llm_json)
  - backend/config/history_schema.py  (history_data_template, normalize_history_data)
  - backend/utils/storage.py    (Storage.save / load / get_latest / save_and_replace)

Python dicts are modelled as ordered association lists (Python dicts preserve
insertion order); JSON values as the inductive `JVal`; the JSONL backing file
as a list of lines, each either blank, malformed (fails JSON parsing), or a
parsed JSON value; uncaught Python exceptions as `Except.error`.
-/

/-- A JSON value as produced by Python's json.loads. Numbers keep Python's
int / float distinction; a float is represented exactly as mantissa * 10 ^ exp10
(the decimal value denoted by the literal; claims never compare float values).
The nonstandard NaN / Infinity literals accepted by Python's json module are
not modelled; no input considered here contains them. -/
inductive JVal where
  | null
  | bool (b : Bool)
  | int (n : Int)
  | float (mantissa exp10 : Int)
  | str (s : String)
  | arr (elems : List JVal)
  | obj (fields : List (String × JVal))

/-- A Python dict with string keys, as an insertion-ordered association list. -/
abbrev JObj := List (String × JVal)

/-- Python dict lookup `d.get(k)` (first occurrence; dicts built by the code
below never carry duplicate keys). -/
def dget : JObj → String → Option JVal
  | [], _ => none
  | (k', v) :: rest, k => if k' = k then some v else dget rest k

/-- Python dict assignment `d[k] = v`: update the existing entry in place,
or append a new entry at the end (insertion order). -/
def setKey : JObj → String → JVal → JObj
  | [], k, v => [(k, v)]
  | (k', v') :: rest, k, v =>
    if k' = k then (k, v) :: rest else (k', v') :: setKey rest k v

/-- Python dict deletion of the entry for `k` (first occurrence). -/
def eraseKey : JObj → String → JObj
  | [], _ => []
  | (k', v') :: rest, k => if k' = k then rest else (k', v') :: eraseKey rest k

/-- Python truthiness of a JSON value: None, False, 0, 0.0, "", [], and
empty dicts are falsy. -/
def truthy : JVal → Bool
  | .null => false
  | .bool b => b
  | .int n => !(n == 0)
  | .float m _ => !(m == 0)
  | .str s => !(s == "")
  | .arr l => !l.isEmpty
  | .obj l => !l.isEmpty

/-- Truthiness of a `dict.get` result: a missing key (None) is falsy. -/
def optTruthy : Option JVal → Bool
  | none => false
  | some v => truthy v

/-- Whether a JSON value is not Python's None. -/
def notNull : JVal → Bool
  | .null => false
  | _ => true

/-- Python `value == ticker` for a looked-up field against a ticker string:
true exactly when the value is that string. -/
def tickerEq (v? : Option JVal) (t : String) : Bool :=
  match v? with
  | some (.str s) => s == t
  | _ => false

/-! Embedding of Python's `json.loads` (strict mode), the JSON decoder used
throughout backend/utils/llm_json.py and backend/utils/storage.py. It is a
recursive-descent parser over the character list of the input; the `fuel`
argument only bounds recursion depth and is always supplied large enough. -/
/-- The whitespace characters skipped between JSON tokens. -/
def isJsonWs (c : Char) : Bool :=
  [' ', '\t', '\n', '\r'].contains c

/-- Skip leading JSON whitespace. -/
def skipWs : List Char → List Char
  | [] => []
  | c :: cs => if isJsonWs c then skipWs cs else c :: cs

/-- Longest prefix of decimal digits, with the remainder. -/
def digitSpan : List Char → List Char × List Char
  | [] => ([], [])
  | c :: cs =>
    if c.isDigit then
      let p := digitSpan cs
      (c :: p.1, p.2)
    else ([], c :: cs)

/-- Numeric value of a digit string. -/
def natOfDigits (ds : List Char) : Nat :=
  ds.foldl (fun a c => a * 10 + (c.toNat - 48)) 0

/-- Integer part of a JSON number: a single 0, or a nonzero digit followed by
digits (json rejects leading zeros by matching only the first 0). -/
def parseIntPart (cs : List Char) : Except String (List Char × List Char) :=
  match cs with
  | c :: rest =>
    if c == '0' then .ok ([c], rest)
    else if c.isDigit then
      let p := digitSpan rest
      .ok (c :: p.1, p.2)
    else .error "Expecting value"
  | [] => .error "Expecting value"

/-- A JSON number: regex -?(0|[1-9][0-9]*)([.][0-9]+)?([eE][+-]?[0-9]+)?,
longest match; produces an int when there is no fraction and no exponent. -/
def parseNumber (cs : List Char) : Except String (JVal × List Char) :=
  let sp := match cs with
    | '-' :: rest => (true, rest)
    | _ => (false, cs)
  match parseIntPart sp.2 with
  | .error e => .error e
  | .ok (ids, rest1) =>
    let fp := match rest1 with
      | '.' :: r =>
        let p := digitSpan r
        if p.1.isEmpty then (([] : List Char), rest1) else (p.1, p.2)
      | _ => ([], rest1)
    let ep := match fp.2 with
      | c :: r =>
        if c == 'e' || c == 'E' then
          match r with
          | s :: r2 =>
            if s == '+' then
              let p := digitSpan r2
              if p.1.isEmpty then (([] : List Char), false, fp.2) else (p.1, false, p.2)
            else if s == '-' then
              let p := digitSpan r2
              if p.1.isEmpty then (([] : List Char), false, fp.2) else (p.1, true, p.2)
            else
              let p := digitSpan r
              if p.1.isEmpty then (([] : List Char), false, fp.2) else (p.1, false, p.2)
          | [] => ([], false, fp.2)
        else ([], false, fp.2)
      | [] => ([], false, fp.2)
    if fp.1.isEmpty && ep.1.isEmpty then
      let n : Int := Int.ofNat (natOfDigits ids)
      .ok (.int (if sp.1 then -n else n), rest1)
    else
      let m : Int := Int.ofNat (natOfDigits (ids ++ fp.1))
      let m2 := if sp.1 then -m else m
      let e10 : Int :=
        (if ep.2.1 then -(Int.ofNat (natOfDigits ep.1)) else Int.ofNat (natOfDigits ep.1))
          - Int.ofNat fp.1.length
      .ok (.float m2 e10, ep.2.2)

/-- Value of a hex digit, if any. -/
def hexVal? (c : Char) : Option Nat :=
  if c.isDigit then some (c.toNat - 48)
  else if 'a' ≤ c ∧ c ≤ 'f' then some (c.toNat - 87)
  else if 'A' ≤ c ∧ c ≤ 'F' then some (c.toNat - 55)
  else none

/-- Translation of a single-character JSON escape. -/
def escChar? (c : Char) : Option Char :=
  match c with
  | '"' => some '"'
  | '\\' => some '\\'
  | '/' => some '/'
  | 'b' => some (Char.ofNat 8)
  | 'f' => some (Char.ofNat 12)
  | 'n' => some '\n'
  | 'r' => some '\r'
  | 't' => some '\t'
  | _ => none

/-- Body of a JSON string after the opening quote, in json's strict mode
(raw control characters rejected). Surrogate-pair recombination for the
uXXXX escape is not modelled; no input considered here uses it. -/
def parseStringBody : Nat → List Char → Except String (List Char × List Char)
  | 0, _ => .error "depth"
  | _, [] => .error "Unterminated string"
  | fuel + 1, c :: cs =>
    if c == '"' then .ok ([], cs)
    else if c == '\\' then
      match cs with
      | [] => .error "Unterminated string"
      | e :: cs' =>
        if e == 'u' then
          match cs' with
          | h1 :: h2 :: h3 :: h4 :: cs2 =>
            match hexVal? h1, hexVal? h2, hexVal? h3, hexVal? h4 with
            | some a, some b, some c3, some d =>
              (parseStringBody fuel cs2).map
                (fun p => (Char.ofNat (a * 4096 + b * 256 + c3 * 16 + d) :: p.1, p.2))
            | _, _, _, _ => .error "Invalid uXXXX escape"
          | _ => .error "Invalid uXXXX escape"
        else
          match escChar? e with
          | some ch => (parseStringBody fuel cs').map (fun p => (ch :: p.1, p.2))
          | none => .error "Invalid escape"
    else if c.toNat < 32 then .error "Invalid control character"
    else (parseStringBody fuel cs).map (fun p => (c :: p.1, p.2))

/-- Insertion of one parsed object member, processed right to left: Python
builds the dict left to right, so a key keeps its first position but the
last of duplicate values wins. -/
def insertPair (k : String) (v : JVal) (o : JObj) : JObj :=
  match dget o k with
  | some w => (k, w) :: eraseKey o k
  | none => (k, v) :: o

mutual

/-- A JSON value, with leading whitespace. -/
def parseValue : Nat → List Char → Except String (JVal × List Char)
  | 0, _ => .error "depth"
  | fuel + 1, cs =>
    match skipWs cs with
    | [] => .error "Expecting value"
    | '\x7b' :: rest =>
      match skipWs rest with
      | '\x7d' :: rest' => .ok (.obj [], rest')
      | rest' => (parseMembers fuel rest').map (fun p => (.obj p.1, p.2))
    | '[' :: rest =>
      match skipWs rest with
      | ']' :: rest' => .ok (.arr [], rest')
      | rest' => (parseElems fuel rest').map (fun p => (.arr p.1, p.2))
    | '"' :: rest =>
      (parseStringBody (rest.length + 1) rest).map (fun p => (.str (String.mk p.1), p.2))
    | 't' :: 'r' :: 'u' :: 'e' :: rest => .ok (.bool true, rest)
    | 'f' :: 'a' :: 'l' :: 's' :: 'e' :: rest => .ok (.bool false, rest)
    | 'n' :: 'u' :: 'l' :: 'l' :: rest => .ok (.null, rest)
    | c :: rest =>
      if c == '-' || c.isDigit then parseNumber (c :: rest)
      else .error "Expecting value"

/-- Elements of a nonempty JSON array, after the opening bracket. -/
def parseElems : Nat → List Char → Except String (List JVal × List Char)
  | 0, _ => .error "depth"
  | fuel + 1, cs =>
    match parseValue fuel cs with
    | .error e => .error e
    | .ok (v, rest) =>
      match skipWs rest with
      | ',' :: rest' => (parseElems fuel rest').map (fun p => (v :: p.1, p.2))
      | ']' :: rest' => .ok ([v], rest')
      | _ => .error "Expecting comma delimiter"

/-- Members of a nonempty JSON object, after the opening brace. -/
def parseMembers : Nat → List Char → Except String (JObj × List Char)
  | 0, _ => .error "depth"
  | fuel + 1, cs =>
    match skipWs cs with
    | '"' :: rest =>
      match parseStringBody (rest.length + 1) rest with
      | .error e => .error e
      | .ok (kcs, rest1) =>
        match skipWs rest1 with
        | ':' :: rest2 =>
          match parseValue fuel rest2 with
          | .error e => .error e
          | .ok (v, rest3) =>
            match skipWs rest3 with
            | ',' :: rest4 =>
              (parseMembers fuel rest4).map (fun p => (insertPair (String.mk kcs) v p.1, p.2))
            | '\x7d' :: rest4 => .ok ([(String.mk kcs, v)], rest4)
            | _ => .error "Expecting comma delimiter"
        | _ => .error "Expecting colon delimiter"
    | _ => .error "Expecting property name"

end

/-- Python `json.loads` over a character list: one JSON value surrounded by
optional whitespace; anything further is Extra data. -/
def jsonLoadsL (cs : List Char) : Except String JVal :=
  match parseValue (cs.length + 2) cs with
  | .error e => .error e
  | .ok (v, rest) => if (skipWs rest).isEmpty then .ok v else .error "Extra data"

/-! Embedding of backend/utils/llm_json.py `parse_llm_json`. -/
/-- Python str.strip() whitespace (the ASCII part; no input considered here
carries non-ASCII whitespace). -/
def pyWs (c : Char) : Bool :=
  [' ', '\t', '\n', '\r', '\x0b', '\x0c'].contains c

/-- Python `s.strip()`. -/
def pstrip (cs : List Char) : List Char :=
  ((cs.dropWhile pyWs).reverse.dropWhile pyWs).reverse

/-- A backtick character. -/
def isTick (c : Char) : Bool := c.toNat == 96

/-- Python re.sub of an anchored leading code-fence marker, three backticks
with an optional json language tag and trailing whitespace. -/
def dropFenceOpen (cs : List Char) : List Char :=
  match cs with
  | a :: b :: c :: rest =>
    if isTick a && isTick b && isTick c then
      (match rest with
       | 'j' :: 's' :: 'o' :: 'n' :: r => r
       | r => r).dropWhile pyWs
    else cs
  | _ => cs

/-- Python re.sub of a trailing code-fence marker: optional whitespace then
three backticks at the end of the text. -/
def dropFenceClose (cs : List Char) : List Char :=
  match cs.reverse with
  | a :: b :: c :: rest =>
    if isTick a && isTick b && isTick c then (rest.dropWhile pyWs).reverse
    else cs
  | _ => cs

/-- The prefix of `cs` ending at the last occurrence of `close`, if any. -/
def upToLast (close : Char) : List Char → Option (List Char)
  | [] => none
  | c :: rest =>
    match upToLast close rest with
    | some l => some (c :: l)
    | none => if c == close then some [c] else none

/-- Python re.search of ([brace ...][\s\S]*[... brace]|[bracket][\s\S]*[bracket]):
the first position holding an opening brace or bracket with a matching closer
somewhere after it, matched greedily to the last such closer. -/
def extractCandidate : List Char → Option (List Char)
  | [] => none
  | c :: rest =>
    if c == '\x7b' then
      match upToLast '\x7d' rest with
      | some l => some (c :: l)
      | none => extractCandidate rest
    else if c == '[' then
      match upToLast ']' rest with
      | some l => some (c :: l)
      | none => extractCandidate rest
    else extractCandidate rest

/-- The failure value of parse_llm_json: the ValueError raised when every
stage fails, carrying the first 800 characters of the cleaned text and the
message of the underlying JSON parse error. -/
structure MalformedResponse where
  snippet : String
  parseError : String

/-- Stage 1 input of parse_llm_json: `(text or "").strip()`. -/
def rawOf (text : String) : List Char := pstrip text.data

/-- Stage 2 of parse_llm_json: strip markdown code fences from the raw text
and strip whitespace again. -/
def cleanedOf (text : String) : List Char :=
  pstrip (dropFenceClose (dropFenceOpen (rawOf text)))

/-- Stage 5 of parse_llm_json: a raw json.loads of the cleaned text as last
attempt; on failure, the diagnostic error value. -/
def stage5 (cleaned : List Char) : Except MalformedResponse JVal :=
  match jsonLoadsL cleaned with
  | .ok v => .ok v
  | .error e => .error ⟨String.mk (cleaned.take 800), e⟩

/-- Stage 4 of parse_llm_json: extract the first greedy object/array substring
and try to parse it; fall through to stage 5 on any failure. -/
def stage45 (cleaned : List Char) : Except MalformedResponse JVal :=
  match extractCandidate cleaned with
  | some cand =>
    match jsonLoadsL cand with
    | .ok v => .ok v
    | .error _ => stage5 cleaned
  | none => stage5 cleaned

/-- Embedding of parse_llm_json. Stage 1 (the LangChain JsonOutputParser) and
stage 3 (the LangChain markdown-aware helper) call an external library that is
not part of this repository; both are modelled from the spec: stage 1 as a
strict parse of the raw text ("Attempt strict parse of the structured-output
parser's contract"), stage 3 as a strict parse of the fence-stripped cleaned
text ("Strip a leading/trailing fenced code-block marker ... then retry
strict parse via a markdown-aware JSON extractor"). Stages 2, 4 and 5 are
translated from the source. -/
def parse_llm_json (text : String) : Except MalformedResponse JVal :=
  match jsonLoadsL (rawOf text) with
  | .ok v => .ok v
  | .error _ =>
    match jsonLoadsL (cleanedOf text) with
    | .ok v => .ok v
    | .error _ => stage45 (cleanedOf text)

/-- Whether stage 4 fails on a cleaned text: no candidate substring, or the
candidate does not parse. -/
def candidateFails (cleaned : List Char) : Bool :=
  match extractCandidate cleaned with
  | some cand =>
    match jsonLoadsL cand with
    | .ok _ => false
    | .error _ => true
  | none => true

/-! Embedding of backend/config/history_schema.py. -/
/-- The keys of the Fixed Schema, in template order. -/
def schemaKeys : List String :=
  ["ticker", "company_name", "currency", "business_model", "moat_analysis",
   "radar_scores", "north_star_metrics", "analysis_normal", "analysis_broken",
   "master_views", "valuation_type", "valuation_params", "valuation_explanation",
   "react_summary", "north_star_analysis", "valuation_adjustment_reasoning",
   "fair_value_range", "valuation_verdict", "margin_of_safety",
   "verdict_reasoning", "financial_snapshot", "reasoning_trace"]

/-- history_data_template: the Fixed-Schema defaults (for a string argument,
Python's `ticker or ""` is the identity). -/
def history_data_template (ticker : String) : JObj :=
  [("ticker", .str ticker), ("company_name", .str ""), ("currency", .str ""),
   ("business_model", .obj []), ("moat_analysis", .obj []), ("radar_scores", .obj []),
   ("north_star_metrics", .arr []), ("analysis_normal", .obj []),
   ("analysis_broken", .obj []), ("master_views", .obj []),
   ("valuation_type", .str ""), ("valuation_params", .obj []),
   ("valuation_explanation", .obj []), ("react_summary", .str ""),
   ("north_star_analysis", .str ""), ("valuation_adjustment_reasoning", .str ""),
   ("fair_value_range", .obj []), ("valuation_verdict", .str ""),
   ("margin_of_safety", .str ""), ("verdict_reasoning", .str ""),
   ("financial_snapshot", .obj []), ("reasoning_trace", .str "")]

/-- The string value of an optional ticker hint: Python `ticker or ""` maps
None and "" to "". -/
def hintString : Option String → String
  | some t => t
  | none => ""

/-- Python truthiness of an Optional[str] hint. -/
def hintTruthy : Option String → Bool
  | some t => !(t == "")
  | none => false

/-- One iteration of the copy loop of normalize_history_data for template
entry `kv`: `if k in data and data[k] is not None: base[k] = data[k]`. -/
def overrideKey (d : JObj) (kv : String × JVal) : String × JVal :=
  match dget d kv.1 with
  | some .null => kv
  | some w => (kv.1, w)
  | none => kv

/-- The ticker field of a raw `data` argument when it is a dict, else None. -/
def rawTicker (data : JVal) : Option JVal :=
  match data with
  | .obj d => dget d "ticker"
  | _ => none

/-- normalize_history_data after its copy loop: template defaults, each
schema key overridden by a non-None value from `data` when `data` is a dict. -/
def normalizeBase (data : JVal) (ticker : Option String) : JObj :=
  match data with
  | .obj d => (history_data_template (hintString ticker)).map (overrideKey d)
  | _ => history_data_template (hintString ticker)

/-- normalize_history_data after `if ticker: base["ticker"] = ticker`. -/
def normalizeTicker (data : JVal) (ticker : Option String) : JObj :=
  if hintTruthy ticker then
    setKey (normalizeBase data ticker) "ticker" (.str (hintString ticker))
  else normalizeBase data ticker

/-- normalize_history_data: coerce any value to the Fixed Schema, then
resolve the ticker field (explicit hint wins; otherwise fall back to the
raw data's ticker when the result's ticker is falsy). -/
def normalize_history_data (data : JVal) (ticker : Option String) : JObj :=
  if !optTruthy (dget (normalizeTicker data ticker) "ticker") && optTruthy (rawTicker data) then
    setKey (normalizeTicker data ticker) "ticker" ((rawTicker data).getD .null)
  else normalizeTicker data ticker

/-! Embedding of backend/utils/storage.py (class Storage). The JSONL backing
file is a list of lines; a line is blank (only whitespace, skipped before
parsing), malformed (json.loads raises JSONDecodeError), or a parsed JSON
value. The store state is `none` when the file does not exist. The current
clock is passed explicitly as the `now` argument of write operations.
Uncaught exceptions (the AttributeError / TypeError raised when a line parses
to a non-dict value) are `Except.error ()`. -/
/-- One line of the JSONL backing file. -/
inductive FLine where
  | blank
  | malformed
  | val (v : JVal)

/-- The backing-file state: none when the file does not exist. -/
abbrev StoreState := Option (List FLine)

/-- The lines of a store state; a missing file reads as no lines. -/
def linesOf (st : StoreState) : List FLine := st.getD []

/-- The record dict constructed by Storage.save and Storage.save_and_replace:
`timestamp or now`, ticker, price (None when omitted), data. -/
def mkRecord (now t : String) (data : JObj) (price : Option JVal)
    (ts : Option String) : JObj :=
  [("timestamp", .str (match ts with
      | some s => if s == "" then now else s
      | none => now)),
   ("ticker", .str t), ("price", price.getD .null), ("data", .obj data)]

/-- Storage.save: append the constructed record as one line (mode "a" creates
a missing file); returns the record. -/
def save (st : StoreState) (now t : String) (data : JObj) (price : Option JVal)
    (ts : Option String) : StoreState × JObj :=
  let r := mkRecord now t data price ts
  (some (linesOf st ++ [.val (.obj r)]), r)

/-- Python truthiness of an optional ticker filter (None or "" disables the
filter). -/
def filterActive : Option String → Bool := hintTruthy

/-- Storage.load backward compatibility: a record missing the price key gets
price None. -/
def priceFill (o : JObj) : JObj :=
  if (dget o "price").isSome then o else setKey o "price" .null

/-- Storage.load backward compatibility: when the record's data is a dict,
a falsy data ticker is filled from a truthy record ticker, then a falsy
record ticker is filled from the (possibly updated) data ticker. The data
dict is mutated in place in Python, so the record's data field reflects the
first fill. -/
def crossFillD (o d : JObj) : JObj :=
  if !optTruthy (dget d "ticker") && optTruthy (dget o "ticker") then
    let d1 := setKey d "ticker" ((dget o "ticker").getD .null)
    let o1 := setKey o "data" (.obj d1)
    if !optTruthy (dget o1 "ticker") && optTruthy (dget d1 "ticker") then
      setKey o1 "ticker" ((dget d1 "ticker").getD .null)
    else o1
  else
    if !optTruthy (dget o "ticker") && optTruthy (dget d "ticker") then
      setKey o "ticker" ((dget d "ticker").getD .null)
    else o

def crossFill (o : JObj) : JObj :=
  match dget o "data" with
  | some (.obj d) => crossFillD o d
  | _ => o

/-- Storage.load processing of one parsed record dict: price fill, ticker
cross-fill, then the optional ticker filter (compared against the record's
post-fill top-level ticker); none when filtered out. -/
def processRecord (tf : Option String) (o : JObj) : Option JObj :=
  let o2 := crossFill (priceFill o)
  if filterActive tf && !tickerEq (dget o2 "ticker") (hintString tf) then none
  else some o2

/-- Storage.load processing of one line: blank lines are skipped before
parsing, malformed lines are skipped by the except clause, object lines are
processed, and any other parsed value crashes load (the price-key membership
test or the subsequent attribute accesses raise on non-dict values, and only
JSONDecodeError is caught). -/
def loadLine (tf : Option String) : FLine → Except Unit (Option JObj)
  | .blank => .ok none
  | .malformed => .ok none
  | .val (.obj o) => .ok (processRecord tf o)
  | .val _ => .error ()

/-- Storage.load over the lines of the file, in file order. -/
def loadLines (tf : Option String) : List FLine → Except Unit (List JObj)
  | [] => .ok []
  | l :: rest =>
    match loadLine tf l with
    | .error e => .error e
    | .ok none => loadLines tf rest
    | .ok (some r) => (loadLines tf rest).map (r :: ·)

/-- Storage.load: a missing file yields []; otherwise the processed records,
newest (last line) first. -/
def load (tf : Option String) (st : StoreState) : Except Unit (List JObj) :=
  match st with
  | none => .ok []
  | some lines => (loadLines tf lines).map List.reverse

/-- Storage.get_latest: records[0] if records else None. -/
def get_latest (tf : Option String) (st : StoreState) : Except Unit (Option JObj) :=
  match load tf st with
  | .error e => .error e
  | .ok rs => .ok rs.head?

/-- The read phase of Storage.save_and_replace: keep every parsed record
whose top-level ticker field differs from the given ticker (no cross-fill is
applied here); blank and malformed lines are dropped; a line parsing to a
non-dict value crashes (record.get raises AttributeError, which is not
caught). -/
def collectKept (t : String) : List FLine → Except Unit (List FLine)
  | [] => .ok []
  | .blank :: rest => collectKept t rest
  | .malformed :: rest => collectKept t rest
  | .val (.obj o) :: rest =>
    if tickerEq (dget o "ticker") t then collectKept t rest
    else (collectKept t rest).map (.val (.obj o) :: ·)
  | .val _ :: _ => .error ()

/-- Storage.save_and_replace: read all records, discard those whose top-level
ticker equals the given ticker, rewrite the file with the survivors followed
by the newly constructed record (mode "w" creates a missing file). -/
def save_and_replace (st : StoreState) (now t : String) (data : JObj)
    (price : Option JVal) (ts : Option String) : Except Unit (StoreState × JObj) :=
  match collectKept t (linesOf st) with
  | .error e => .error e
  | .ok kept =>
    let r := mkRecord now t data price ts
    .ok (some (kept ++ [.val (.obj r)]), r)

/-- The parsed record dicts stored in a list of file lines, in file order. -/
def recordsOf (lines : List FLine) : List JObj :=
  lines.filterMap (fun l =>
    match l with
    | .val (.obj o) => some o
    | _ => none)

/-- The lines save_and_replace keeps, as a filterMap. -/
def keptLines (t : String) (lines : List FLine) : List FLine :=
  lines.filterMap (fun l =>
    match l with
    | .val (.obj o) => if tickerEq (dget o "ticker") t then none else some (.val (.obj o))
    | _ => none)

/-- Whether every parsed line of the file is a dict (the states on which load
and save_and_replace do not crash). -/
def objLinesOnly (lines : List FLine) : Bool :=
  lines.all (fun l =>
    match l with
    | .val (.obj _) => true
    | .val _ => false
    | _ => true)

/-! Lemmas about normalize_history_data. -/
/-- The value a schema key receives in the copy loop: the raw value when
present and not None, else the default. -/
def orDef (w? : Option JVal) (v : JVal) : JVal :=
  match w? with
  | some .null => v
  | some w => w
  | none => v

/-- Whether every value of a dict is not None. -/
def allNotNull (l : JObj) : Bool := l.all (fun kv => notNull kv.2)

/-- Lookup of a schema key in a raw normalize argument: its dict entry when
the argument is a dict, else nothing. -/
def rawLookup (data : JVal) (k : String) : Option JVal :=
  match data with
  | .obj m => dget m k
  | _ => none

/-- A canonical already-normalized record for the AAPL ticker. -/
def exRecA : JObj := mkRecord "t0" "AAPL" [("ticker", JVal.str "AAPL")] none none

/-- A canonical already-normalized record for the MSFT ticker. -/
def exRecM : JObj := mkRecord "t1" "MSFT" [("ticker", JVal.str "MSFT")] none none

/-- A stored record with no top-level ticker field whose data carries the
ticker AAPL (an old-format line, the shape claim C10 is about). -/
def orphanRec : JObj :=
  [("timestamp", JVal.str "t0"), ("price", JVal.null),
   ("data", JVal.obj [("ticker", JVal.str "AAPL"), ("score", JVal.int 1)])]

/-- The orphan record as load returns it: the top-level ticker cross-filled
from its data. -/
def orphanFilled : JObj := orphanRec ++ [("ticker", JVal.str "AAPL")]

/-- The record written by the replace call of claim C10. -/
def c10new : JObj := mkRecord "t2" "AAPL" [("ticker", JVal.str "AAPL")] none none

theorem dget_setKey_self (l : JObj) (k : String) (v : JVal) :
    dget (setKey l k v) k = some v := by
  induction l with
  | nil => simp [setKey, dget]
  | cons kv rest ih =>
    obtain ⟨k', v'⟩ := kv
    by_cases h : k' = k
    · simp [setKey, dget, h]
    · simp [setKey, dget, h, ih]

theorem dget_setKey_ne (l : JObj) (k k₂ : String) (v : JVal) (h : k ≠ k₂) :
    dget (setKey l k v) k₂ = dget l k₂ := by
  induction l with
  | nil => simp [setKey, dget, h]
  | cons kv rest ih =>
    obtain ⟨k', v'⟩ := kv
    by_cases hk : k' = k
    · subst hk
      simp [setKey, dget, h]
    · simp [setKey, dget, hk, ih]

theorem setKey_id (l : JObj) (k : String) (v : JVal) (h : dget l k = some v) :
    setKey l k v = l := by
  induction l with
  | nil => simp [dget] at h
  | cons kv rest ih =>
    obtain ⟨k', v'⟩ := kv
    by_cases hk : k' = k
    · subst hk
      simp [dget] at h
      simp [setKey, h]
    · simp [dget, hk] at h
      simp [setKey, hk, ih h]

theorem setKey_keys_of_mem (l : JObj) (k : String) (v : JVal)
    (h : k ∈ l.map Prod.fst) :
    (setKey l k v).map Prod.fst = l.map Prod.fst := by
  induction l with
  | nil => simp at h
  | cons kv rest ih =>
    obtain ⟨k', v'⟩ := kv
    by_cases hk : k' = k
    · simp [setKey, hk]
    · rw [List.map_cons, List.mem_cons] at h
      rcases h with h | h
      · exact absurd h.symm hk
      · simp [setKey, hk, ih h]

theorem dget_eq_none_of_not_mem (l : JObj) (k : String)
    (h : k ∉ l.map Prod.fst) :
    dget l k = none := by
  induction l with
  | nil => rfl
  | cons kv rest ih =>
    obtain ⟨k', v'⟩ := kv
    rw [List.map_cons, List.mem_cons] at h
    push_neg at h
    have hne : k' ≠ k := fun he => h.1 he.symm
    simp [dget, hne, ih h.2]

theorem dget_of_mem_nodup (l : JObj) (k : String) (v : JVal)
    (hm : (k, v) ∈ l) (hnd : (l.map Prod.fst).Nodup) :
    dget l k = some v := by
  induction l with
  | nil => simp at hm
  | cons kv rest ih =>
    obtain ⟨k', v'⟩ := kv
    rw [List.map_cons, List.nodup_cons] at hnd
    rcases List.mem_cons.mp hm with h | hm'
    · obtain ⟨h1, h2⟩ := Prod.mk.injEq .. ▸ h
      simp [dget, h1.symm, h2]
    · have hne : k' ≠ k := by
        intro he
        exact hnd.1 (he ▸ List.mem_map.mpr ⟨(k, v), hm', rfl⟩)
      simp [dget, hne, ih hm' hnd.2]

theorem overrideKey_eq (d : JObj) (kv : String × JVal) :
    overrideKey d kv = (kv.1, orDef (dget d kv.1) kv.2) := by
  cases h : dget d kv.1 with
  | none => simp [overrideKey, orDef, h]
  | some w => cases w <;> simp [overrideKey, orDef, h]

theorem dget_map_overrideKey (l d : JObj) (k : String) :
    dget (l.map (overrideKey d)) k = (dget l k).map (fun v => orDef (dget d k) v) := by
  induction l with
  | nil => rfl
  | cons kv rest ih =>
    obtain ⟨k', v'⟩ := kv
    rw [List.map_cons, overrideKey_eq]
    by_cases hk : k' = k
    · subst hk; simp [dget]
    · simp [dget, hk, ih]

theorem map_override_keys (l d : JObj) :
    (l.map (overrideKey d)).map Prod.fst = l.map Prod.fst := by
  induction l with
  | nil => rfl
  | cons kv rest ih =>
    rw [List.map_cons, List.map_cons, overrideKey_eq]
    simp [ih]

theorem template_keys (t : String) :
    (history_data_template t).map Prod.fst = schemaKeys := rfl

theorem schemaKeys_nodup : schemaKeys.Nodup := by decide

theorem ticker_mem_schemaKeys : "ticker" ∈ schemaKeys := by decide

theorem normalizeBase_keys (d : JVal) (h : Option String) :
    (normalizeBase d h).map Prod.fst = schemaKeys := by
  cases d <;>
    simp only [normalizeBase, map_override_keys, template_keys]

theorem normalizeTicker_keys (d : JVal) (h : Option String) :
    (normalizeTicker d h).map Prod.fst = schemaKeys := by
  unfold normalizeTicker
  by_cases ht : hintTruthy h
  · rw [if_pos ht,
      setKey_keys_of_mem _ _ _ (by rw [normalizeBase_keys]; exact ticker_mem_schemaKeys),
      normalizeBase_keys]
  · rw [if_neg ht, normalizeBase_keys]

theorem hintString_of_not_truthy (h : Option String) (hf : hintTruthy h = false) :
    hintString h = "" := by
  cases h with
  | none => rfl
  | some t =>
    simp [hintTruthy] at hf
    simp [hintString, hf]

theorem hintString_beq_of_truthy (h : Option String) (ht : hintTruthy h = true) :
    (hintString h == "") = false := by
  cases h with
  | none => simp [hintTruthy] at ht
  | some t => simpa [hintTruthy, hintString] using ht

theorem dget_template_ticker (t : String) :
    dget (history_data_template t) "ticker" = some (.str t) := rfl

theorem dget_normalizeTicker_ticker_of_truthy (d : JVal) (h : Option String)
    (ht : hintTruthy h = true) :
    dget (normalizeTicker d h) "ticker" = some (.str (hintString h)) := by
  unfold normalizeTicker
  rw [if_pos ht, dget_setKey_self]

theorem normalize_fill_dead (d : JVal) (h : Option String) :
    normalize_history_data d h = normalizeTicker d h := by
  unfold normalize_history_data
  by_cases ht : hintTruthy h
  · rw [dget_normalizeTicker_ticker_of_truthy d h ht]
    simp [optTruthy, truthy, hintString_beq_of_truthy h ht]
  · have hb : normalizeTicker d h = normalizeBase d h := by
      unfold normalizeTicker
      rw [if_neg ht]
    rw [hb]
    cases d with
    | obj m =>
      have hx : dget (normalizeBase (.obj m) h) "ticker"
          = some (orDef (dget m "ticker") (.str (hintString h))) := by
        unfold normalizeBase
        rw [dget_map_overrideKey, dget_template_ticker]
        rfl
      rw [hx]
      cases hm : dget m "ticker" with
      | none => simp [rawTicker, hm, optTruthy]
      | some w =>
        cases w with
        | null => simp [rawTicker, hm, optTruthy, truthy]
        | bool b => cases b <;> simp [rawTicker, hm, optTruthy, truthy, orDef]
        | int n =>
          by_cases hz : n == 0 <;>
            simp [rawTicker, hm, optTruthy, truthy, orDef, hz]
        | float m2 e =>
          by_cases hz : m2 == 0 <;>
            simp [rawTicker, hm, optTruthy, truthy, orDef, hz]
        | str s =>
          by_cases hz : s == "" <;>
            simp [rawTicker, hm, optTruthy, truthy, orDef, hz]
        | arr l =>
          by_cases hz : l.isEmpty <;>
            simp [rawTicker, hm, optTruthy, truthy, orDef, hz]
        | obj l =>
          by_cases hz : l.isEmpty <;>
            simp [rawTicker, hm, optTruthy, truthy, orDef, hz]
    | null => simp [rawTicker, optTruthy]
    | bool b => simp [rawTicker, optTruthy]
    | int n => simp [rawTicker, optTruthy]
    | float m e => simp [rawTicker, optTruthy]
    | str s => simp [rawTicker, optTruthy]
    | arr l => simp [rawTicker, optTruthy]

theorem orDef_notNull (w? : Option JVal) (v : JVal) (hv : notNull v = true) :
    notNull (orDef w? v) = true := by
  cases w? with
  | none => exact hv
  | some w =>
    cases w with
    | null => exact hv
    | bool b => rfl
    | int n => rfl
    | float m e => rfl
    | str s => rfl
    | arr l => rfl
    | obj l => rfl

theorem template_allNotNull (t : String) :
    allNotNull (history_data_template t) = true := rfl

theorem map_override_allNotNull (l d : JObj) (h : allNotNull l = true) :
    allNotNull (l.map (overrideKey d)) = true := by
  rw [allNotNull, List.all_eq_true]
  intro kv hkv
  rcases List.mem_map.mp hkv with ⟨kv0, hkv0, hmap⟩
  rw [allNotNull, List.all_eq_true] at h
  rw [← hmap, overrideKey_eq]
  exact orDef_notNull _ _ (h kv0 hkv0)

theorem setKey_allNotNull (l : JObj) (k : String) (v : JVal)
    (hl : allNotNull l = true) (hv : notNull v = true) :
    allNotNull (setKey l k v) = true := by
  induction l with
  | nil => simpa [setKey, allNotNull] using hv
  | cons kv rest ih =>
    obtain ⟨k', v'⟩ := kv
    rw [allNotNull, List.all_cons, Bool.and_eq_true] at hl
    by_cases hk : k' = k
    · simp only [setKey, if_pos hk, allNotNull, List.all_cons, Bool.and_eq_true]
      exact ⟨hv, hl.2⟩
    · simp only [setKey, if_neg hk, allNotNull, List.all_cons, Bool.and_eq_true]
      exact ⟨hl.1, ih hl.2⟩

theorem normalize_allNotNull (d : JVal) (h : Option String) :
    allNotNull (normalize_history_data d h) = true := by
  rw [normalize_fill_dead]
  have hbase : allNotNull (normalizeBase d h) = true := by
    cases d <;>
      first
        | exact template_allNotNull _
        | exact map_override_allNotNull _ _ (template_allNotNull _)
  unfold normalizeTicker
  by_cases ht : hintTruthy h
  · rw [if_pos ht]
    exact setKey_allNotNull _ _ _ hbase rfl
  · rw [if_neg ht]
    exact hbase

theorem map_override_aligned (base : JObj) :
    ∀ n : JObj, base.map Prod.fst = n.map Prod.fst →
      (base.map Prod.fst).Nodup → allNotNull n = true →
      base.map (overrideKey n) = n := by
  induction base with
  | nil =>
    intro n hk _ _
    cases n with
    | nil => rfl
    | cons kv rest => simp at hk
  | cons kv rest ih =>
    intro n hk hnd hnn
    obtain ⟨k, v⟩ := kv
    cases n with
    | nil => simp at hk
    | cons kv2 n2 =>
      obtain ⟨k2, w⟩ := kv2
      rw [List.map_cons, List.map_cons, List.cons.injEq] at hk
      rw [List.map_cons, List.nodup_cons] at hnd
      rw [allNotNull, List.all_cons, Bool.and_eq_true] at hnn
      rw [List.map_cons, overrideKey_eq]
      have hkk : k = k2 := hk.1
      have hd : dget ((k2, w) :: n2) k = some w := by simp [dget, hkk]
      have hw : orDef (some w) v = w := by
        cases w with
        | null => simp [notNull] at hnn
        | bool b => rfl
        | int n => rfl
        | float m e => rfl
        | str s => rfl
        | arr l => rfl
        | obj l => rfl
      rw [hd, hw, hkk]
      congr 1
      have htail : rest.map (overrideKey ((k2, w) :: n2)) = rest.map (overrideKey n2) := by
        apply List.map_congr_left
        intro kv3 hkv3
        rw [overrideKey_eq, overrideKey_eq]
        have hne : k2 ≠ kv3.1 := by
          intro he
          apply hnd.1
          rw [hkk, he]
          exact List.mem_map.mpr ⟨kv3, hkv3, rfl⟩
        simp [dget, hne]
      rw [htail]
      exact ih n2 hk.2 hnd.2 hnn.2

theorem normalize_keys (d : JVal) (h : Option String) :
    (normalize_history_data d h).map Prod.fst = schemaKeys := by
  rw [normalize_fill_dead]
  exact normalizeTicker_keys d h

theorem normalize_none_eq_base (d : JVal) :
    normalize_history_data d none = normalizeBase d none := by
  rw [normalize_fill_dead]
  unfold normalizeTicker
  rfl

theorem dget_normalize_none (d : JVal) (k : String) (v : JVal)
    (hm : (k, v) ∈ history_data_template "") :
    dget (normalize_history_data d none) k = some (orDef (rawLookup d k) v) := by
  rw [normalize_none_eq_base]
  have hv : dget (history_data_template "") k = some v :=
    dget_of_mem_nodup _ _ _ hm (by rw [template_keys]; exact schemaKeys_nodup)
  cases d with
  | obj m =>
    show dget ((history_data_template (hintString none)).map (overrideKey m)) k = _
    rw [dget_map_overrideKey]
    show (dget (history_data_template "") k).map _ = _
    rw [hv]
    rfl
  | null => show dget (history_data_template "") k = _; rw [hv]; rfl
  | bool b => show dget (history_data_template "") k = _; rw [hv]; rfl
  | int n => show dget (history_data_template "") k = _; rw [hv]; rfl
  | float m e => show dget (history_data_template "") k = _; rw [hv]; rfl
  | str s => show dget (history_data_template "") k = _; rw [hv]; rfl
  | arr l => show dget (history_data_template "") k = _; rw [hv]; rfl

/-- C3: for every input (mapping or non-mapping), normalize_history_data
(with no ticker hint; an explicit hint overwrites the ticker key, which is
claim C5's subject) returns a mapping whose key set is exactly the Fixed
Schema; every schema key absent from the input or present with a null value
holds its documented default; every schema key present with a non-null value
holds the input's value (copied wholesale); every non-schema key of the
input is absent from the output. -/
theorem c3_normalize_fixed_schema (d : JVal) :
    ((normalize_history_data d none).map Prod.fst = schemaKeys) ∧
    (∀ k, k ∉ schemaKeys → dget (normalize_history_data d none) k = none) ∧
    (∀ k v, (k, v) ∈ history_data_template "" →
      dget (normalize_history_data d none) k = some (orDef (rawLookup d k) v)) := by
  refine ⟨normalize_keys d none, fun k hk => ?_, fun k v hm => dget_normalize_none d k v hm⟩
  exact dget_eq_none_of_not_mem _ _ (by rw [normalize_keys]; exact hk)

/-- Witness for C3 at a concrete input: the extra key junk is dropped, a
present non-null schema key keeps the input's value, and an absent schema
key holds its default. -/
theorem c3_normalize_fixed_schema_witness :
    dget (normalize_history_data
        (.obj [("company_name", JVal.str "Apple"), ("junk", JVal.int 7)]) none) "junk"
        = none ∧
    dget (normalize_history_data
        (.obj [("company_name", JVal.str "Apple"), ("junk", JVal.int 7)]) none) "company_name"
        = some (JVal.str "Apple") ∧
    dget (normalize_history_data
        (.obj [("company_name", JVal.str "Apple"), ("junk", JVal.int 7)]) none) "currency"
        = some (JVal.str "") := by
  refine ⟨?_, ?_, ?_⟩
  · exact (c3_normalize_fixed_schema _).2.1 "junk" (by decide)
  · exact (c3_normalize_fixed_schema
      (.obj [("company_name", JVal.str "Apple"), ("junk", JVal.int 7)])).2.2
      "company_name" (JVal.str "") (List.mem_cons_of_mem _ (List.mem_cons_self _ _))
  · exact (c3_normalize_fixed_schema
      (.obj [("company_name", JVal.str "Apple"), ("junk", JVal.int 7)])).2.2
      "currency" (JVal.str "")
      (List.mem_cons_of_mem _ (List.mem_cons_of_mem _ (List.mem_cons_self _ _)))

/-- C4: normalize_history_data is idempotent: re-normalizing its own output
(with the same ticker hint) returns the identical mapping, for every input
value and every hint. The function is embedded as a pure Lean function,
matching the source, which performs no I/O and does not mutate its
arguments. -/
theorem c4_normalize_idempotent (m : JVal) (h : Option String) :
    normalize_history_data (.obj (normalize_history_data m h)) h
      = normalize_history_data m h := by
  rw [normalize_fill_dead (JVal.obj (normalize_history_data m h)) h]
  have hbase : normalizeBase (.obj (normalize_history_data m h)) h
      = normalize_history_data m h := by
    show (history_data_template (hintString h)).map
        (overrideKey (normalize_history_data m h)) = normalize_history_data m h
    exact map_override_aligned _ _
      (by rw [template_keys, normalize_keys])
      (by rw [template_keys]; exact schemaKeys_nodup)
      (normalize_allNotNull m h)
  unfold normalizeTicker
  rw [hbase]
  by_cases ht : hintTruthy h
  · rw [if_pos ht]
    exact setKey_id _ _ _
      (by rw [normalize_fill_dead]
          exact dget_normalizeTicker_ticker_of_truthy m h ht)
  · rw [if_neg ht]

/-- C5: an explicit non-empty ticker hint always overwrites the output's
ticker field; with no hint, an input mapping whose ticker field is truthy
(present and non-empty) determines the output's ticker field. -/
theorem c5_ticker_resolution :
    (∀ (d : JVal) (t : String), t ≠ "" →
      dget (normalize_history_data d (some t)) "ticker" = some (.str t)) ∧
    (∀ m : JObj, optTruthy (dget m "ticker") = true →
      dget (normalize_history_data (.obj m) none) "ticker" = dget m "ticker") := by
  constructor
  · intro d t ht
    have htr : hintTruthy (some t) = true := by
      simp [hintTruthy, ht]
    rw [normalize_fill_dead]
    exact dget_normalizeTicker_ticker_of_truthy d (some t) htr
  · intro m hm
    have := dget_normalize_none (.obj m) "ticker" (.str "") (List.mem_cons_self _ _)
    rw [this]
    show some (orDef (dget m "ticker") (.str "")) = _
    cases hmt : dget m "ticker" with
    | none => rw [hmt] at hm; simp [optTruthy] at hm
    | some w =>
      cases w with
      | null => rw [hmt] at hm; simp [optTruthy, truthy] at hm
      | bool b => rfl
      | int n => rfl
      | float m2 e => rfl
      | str s => rfl
      | arr l => rfl
      | obj l => rfl

/-- Witness for C5 at concrete inputs: the hint AAPL overwrites the input's
ticker MSFT; with no hint the input's non-empty ticker MSFT is kept. -/
theorem c5_ticker_resolution_witness :
    dget (normalize_history_data (.obj [("ticker", JVal.str "MSFT")]) (some "AAPL")) "ticker"
      = some (JVal.str "AAPL") ∧
    dget (normalize_history_data (.obj [("ticker", JVal.str "MSFT")]) none) "ticker"
      = some (JVal.str "MSFT") := by
  constructor
  · exact c5_ticker_resolution.1 (.obj [("ticker", JVal.str "MSFT")]) "AAPL" (by decide)
  · exact c5_ticker_resolution.2 [("ticker", JVal.str "MSFT")] rfl

/-! Lemmas about the Storage embedding. -/
theorem tickerEq_true_iff (v? : Option JVal) (t : String) :
    tickerEq v? t = true ↔ v? = some (.str t) := by
  cases v? with
  | none => simp [tickerEq]
  | some w =>
    cases w with
    | str s => simp [tickerEq]
    | null => simp [tickerEq]
    | bool b => simp [tickerEq]
    | int n => simp [tickerEq]
    | float m e => simp [tickerEq]
    | arr l => simp [tickerEq]
    | obj l => simp [tickerEq]

theorem collectKept_ok (t : String) :
    ∀ (lines kept : List FLine), collectKept t lines = .ok kept →
      kept = keptLines t lines ∧ objLinesOnly lines = true := by
  intro lines
  induction lines with
  | nil =>
    intro kept h
    simp [collectKept] at h
    subst h
    exact ⟨rfl, rfl⟩
  | cons l rest ih =>
    intro kept h
    cases l with
    | blank =>
      have := ih kept h
      exact ⟨this.1, this.2⟩
    | malformed =>
      have := ih kept h
      exact ⟨this.1, this.2⟩
    | val v =>
      cases v with
      | obj o =>
        by_cases hto : tickerEq (dget o "ticker") t
        · rw [show collectKept t (FLine.val (.obj o) :: rest) = collectKept t rest by
            simp [collectKept, hto]] at h
          have := ih kept h
          refine ⟨?_, ?_⟩
          · rw [this.1]
            simp [keptLines, hto]
          · simpa [objLinesOnly] using this.2
        · rw [show collectKept t (FLine.val (.obj o) :: rest)
              = (collectKept t rest).map (FLine.val (.obj o) :: ·) by
            simp [collectKept, hto]] at h
          cases hr : collectKept t rest with
          | error e => rw [hr] at h; simp [Except.map] at h
          | ok ks =>
            rw [hr] at h
            simp [Except.map] at h
            have := ih ks hr
            refine ⟨?_, ?_⟩
            · rw [← h, this.1]
              simp [keptLines, hto]
            · simpa [objLinesOnly] using this.2
      | null => simp [collectKept] at h
      | bool b => simp [collectKept] at h
      | int n => simp [collectKept] at h
      | float m e => simp [collectKept] at h
      | str s => simp [collectKept] at h
      | arr l2 => simp [collectKept] at h

theorem loadLines_ok_of_obj (tf : Option String) :
    ∀ lines : List FLine, objLinesOnly lines = true →
      ∃ rs, loadLines tf lines = .ok rs := by
  intro lines
  induction lines with
  | nil => exact fun _ => ⟨[], rfl⟩
  | cons l rest ih =>
    intro hobj
    rw [objLinesOnly, List.all_cons, Bool.and_eq_true] at hobj
    obtain ⟨rs, hrs⟩ := ih hobj.2
    cases l with
    | blank => exact ⟨rs, by simp [loadLines, loadLine, hrs]⟩
    | malformed => exact ⟨rs, by simp [loadLines, loadLine, hrs]⟩
    | val v =>
      cases v with
      | obj o =>
        cases hp : processRecord tf o with
        | none => exact ⟨rs, by simp [loadLines, loadLine, hp, hrs]⟩
        | some r => exact ⟨r :: rs, by simp [loadLines, loadLine, hp, hrs, Except.map]⟩
      | null => exact Bool.noConfusion hobj.1
      | bool b => exact Bool.noConfusion hobj.1
      | int n => exact Bool.noConfusion hobj.1
      | float m e => exact Bool.noConfusion hobj.1
      | str s => exact Bool.noConfusion hobj.1
      | arr l2 => exact Bool.noConfusion hobj.1

theorem dget_priceFill_ne (o : JObj) (k : String) (hk : "price" ≠ k) :
    dget (priceFill o) k = dget o k := by
  unfold priceFill
  by_cases h : (dget o "price").isSome
  · rw [if_pos h]
  · rw [if_neg h, dget_setKey_ne _ _ _ _ hk]

theorem dget_crossFill_ticker_of_truthy (o : JObj)
    (ht : optTruthy (dget o "ticker") = true) :
    dget (crossFill o) "ticker" = dget o "ticker" := by
  unfold crossFill
  cases hd : dget o "data" with
  | none => rfl
  | some dv =>
    cases dv with
    | null => rfl
    | bool b => rfl
    | int n => rfl
    | float m e => rfl
    | str s => rfl
    | arr l => rfl
    | obj d =>
      have hda : ∀ x, dget (setKey o "data" x) "ticker" = dget o "ticker" :=
        fun x => dget_setKey_ne _ _ _ _ (by decide)
      show dget (crossFillD o d) "ticker" = dget o "ticker"
      unfold crossFillD
      by_cases h1 : !optTruthy (dget d "ticker") && optTruthy (dget o "ticker")
      · rw [if_pos h1]
        simp only [hda, ht, Bool.not_true, Bool.false_and, Bool.false_eq_true,
          if_false]
      · rw [if_neg h1]
        simp only [ht, Bool.not_true, Bool.false_and, Bool.false_eq_true, if_false]

theorem optTruthy_str_of_ne (t : String) (ht : t ≠ "") :
    optTruthy (some (.str t)) = true := by
  simp [optTruthy, truthy, ht]

theorem processRecord_none_of_other (u t : String) (o : JObj)
    (hut : u ≠ t) (hu : u ≠ "") (htt : t ≠ "")
    (ho : dget o "ticker" = some (.str t)) :
    processRecord (some u) o = none := by
  have h1 : dget (priceFill o) "ticker" = some (.str t) := by
    rw [dget_priceFill_ne _ _ (by decide), ho]
  have h2 : dget (crossFill (priceFill o)) "ticker" = some (.str t) := by
    rw [dget_crossFill_ticker_of_truthy _ (by rw [h1]; exact optTruthy_str_of_ne t htt), h1]
  show (if (filterActive (some u)
        && !tickerEq (dget (crossFill (priceFill o)) "ticker") (hintString (some u))) = true
      then none else some (crossFill (priceFill o))) = none
  rw [h2]
  have hfa : filterActive (some u) = true := by
    simp [filterActive, hintTruthy, hu]
  have hne : tickerEq (some (JVal.str t)) (hintString (some u)) = false := by
    simp [tickerEq, hintString]
    exact fun he => hut he.symm
  rw [hfa, hne]
  rfl

theorem processRecord_some_of_match (t : String) (o : JObj)
    (htt : t ≠ "")
    (ho : dget o "ticker" = some (.str t)) :
    processRecord (some t) o = some (crossFill (priceFill o)) := by
  have h1 : dget (priceFill o) "ticker" = some (.str t) := by
    rw [dget_priceFill_ne _ _ (by decide), ho]
  have h2 : dget (crossFill (priceFill o)) "ticker" = some (.str t) := by
    rw [dget_crossFill_ticker_of_truthy _ (by rw [h1]; exact optTruthy_str_of_ne t htt), h1]
  show (if (filterActive (some t)
        && !tickerEq (dget (crossFill (priceFill o)) "ticker") (hintString (some t))) = true
      then none else some (crossFill (priceFill o))) = some (crossFill (priceFill o))
  rw [h2]
  have heq : tickerEq (some (JVal.str t)) (hintString (some t)) = true := by
    simp [tickerEq, hintString]
  rw [heq]
  simp

theorem loadLines_keptLines (u t : String) (hut : u ≠ t) (hu : u ≠ "") (htt : t ≠ "") :
    ∀ lines : List FLine, objLinesOnly lines = true →
      loadLines (some u) (keptLines t lines) = loadLines (some u) lines := by
  intro lines
  induction lines with
  | nil => intro _; rfl
  | cons l rest ih =>
    intro hobj
    rw [objLinesOnly, List.all_cons, Bool.and_eq_true] at hobj
    have hr := ih hobj.2
    cases l with
    | blank => exact hr
    | malformed => exact hr
    | val v =>
      cases v with
      | obj o =>
        by_cases hto : tickerEq (dget o "ticker") t
        · have hkept : keptLines t (FLine.val (.obj o) :: rest) = keptLines t rest := by
            simp [keptLines, hto]
          have ho : dget o "ticker" = some (.str t) := (tickerEq_true_iff _ _).mp hto
          have hpn : processRecord (some u) o = none :=
            processRecord_none_of_other u t o hut hu htt ho
          rw [hkept, hr]
          show _ = loadLines (some u) (FLine.val (.obj o) :: rest)
          simp [loadLines, loadLine, hpn]
        · have hkept : keptLines t (FLine.val (.obj o) :: rest)
              = FLine.val (.obj o) :: keptLines t rest := by
            simp [keptLines, hto]
          rw [hkept]
          simp only [loadLines]
          rw [hr]
      | null => exact Bool.noConfusion hobj.1
      | bool b => exact Bool.noConfusion hobj.1
      | int n => exact Bool.noConfusion hobj.1
      | float m e => exact Bool.noConfusion hobj.1
      | str s => exact Bool.noConfusion hobj.1
      | arr l2 => exact Bool.noConfusion hobj.1

theorem loadLines_append (tf : Option String) :
    ∀ (xs ys : List FLine) (rxs rys : List JObj),
      loadLines tf xs = .ok rxs → loadLines tf ys = .ok rys →
      loadLines tf (xs ++ ys) = .ok (rxs ++ rys) := by
  intro xs
  induction xs with
  | nil =>
    intro ys rxs rys hx hy
    simp [loadLines] at hx
    subst hx
    simpa using hy
  | cons l rest ih =>
    intro ys rxs rys hx hy
    simp only [List.cons_append, loadLines] at hx ⊢
    cases hl : loadLine tf l with
    | error e => rw [hl] at hx; simp at hx
    | ok r? =>
      rw [hl] at hx
      cases r? with
      | none => exact ih ys rxs rys hx hy
      | some r =>
        cases hrest : loadLines tf rest with
        | error e => rw [hrest] at hx; simp [Except.map] at hx
        | ok rs =>
          rw [hrest] at hx
          simp [Except.map] at hx
          show (loadLines tf (rest ++ ys)).map (r :: ·) = Except.ok (rxs ++ rys)
          rw [ih ys rs rys hrest hy]
          simp [Except.map, ← hx]

theorem recordsOf_keptLines (t : String) (lines : List FLine) :
    recordsOf (keptLines t lines)
      = (recordsOf lines).filter (fun o => !tickerEq (dget o "ticker") t) := by
  induction lines with
  | nil => rfl
  | cons l rest ih =>
    cases l with
    | blank => simpa [keptLines, recordsOf] using ih
    | malformed => simpa [keptLines, recordsOf] using ih
    | val v =>
      cases v with
      | obj o =>
        by_cases hto : tickerEq (dget o "ticker") t
        · simp [keptLines, recordsOf, hto] at ih ⊢
          exact ih
        · simp [keptLines, recordsOf, hto] at ih ⊢
          exact ih
      | null => simpa [keptLines, recordsOf] using ih
      | bool b => simpa [keptLines, recordsOf] using ih
      | int n => simpa [keptLines, recordsOf] using ih
      | float m e => simpa [keptLines, recordsOf] using ih
      | str s => simpa [keptLines, recordsOf] using ih
      | arr l2 => simpa [keptLines, recordsOf] using ih

theorem dget_mkRecord_ticker (now t : String) (d : JObj) (p : Option JVal)
    (ts : Option String) :
    dget (mkRecord now t d p ts) "ticker" = some (.str t) := rfl

theorem dget_mkRecord_data (now t : String) (d : JObj) (p : Option JVal)
    (ts : Option String) :
    dget (mkRecord now t d p ts) "data" = some (.obj d) := rfl

theorem priceFill_mkRecord (now t : String) (d : JObj) (p : Option JVal)
    (ts : Option String) :
    priceFill (mkRecord now t d p ts) = mkRecord now t d p ts := by
  unfold priceFill
  rw [if_pos]
  rfl

theorem crossFill_mkRecord (now t : String) (d : JObj) (p : Option JVal)
    (ts : Option String) (htt : t ≠ "") (hd : optTruthy (dget d "ticker") = true) :
    crossFill (mkRecord now t d p ts) = mkRecord now t d p ts := by
  unfold crossFill
  rw [dget_mkRecord_data]
  show crossFillD (mkRecord now t d p ts) d = _
  unfold crossFillD
  rw [hd]
  simp only [Bool.not_true, Bool.false_and, Bool.false_eq_true, if_false]
  rw [dget_mkRecord_ticker, optTruthy_str_of_ne t htt]
  simp only [Bool.not_true, Bool.false_and, Bool.false_eq_true, if_false]

theorem processRecord_mkRecord (now t : String) (d : JObj) (p : Option JVal)
    (ts : Option String) (htt : t ≠ "") (hd : optTruthy (dget d "ticker") = true) :
    processRecord (some t) (mkRecord now t d p ts) = some (mkRecord now t d p ts) := by
  rw [processRecord_some_of_match t _ htt (dget_mkRecord_ticker now t d p ts),
    priceFill_mkRecord, crossFill_mkRecord now t d p ts htt hd]

theorem load_eq_linesOf (tf : Option String) (st : StoreState) :
    load tf st = (loadLines tf (linesOf st)).map List.reverse := by
  cases st with
  | none => rfl
  | some ls => rfl

/-- C2: for every log state on which an uninterrupted (non-crashing)
save_and_replace for a non-empty ticker t succeeds, afterwards exactly one
record in the log carries the top-level ticker t and it is the newly
constructed record; every record whose ticker differs from t is preserved in
its original relative order; and load(u) for any other non-empty ticker u is
unchanged in content and count. -/
theorem c2_replace_semantics (st : StoreState) (now t : String) (data : JObj)
    (price : Option JVal) (ts : Option String) (st2 : StoreState) (rec : JObj)
    (htt : t ≠ "")
    (h : save_and_replace st now t data price ts = .ok (st2, rec)) :
    rec = mkRecord now t data price ts ∧
    (recordsOf (linesOf st2)).filter (fun o => tickerEq (dget o "ticker") t) = [rec] ∧
    (recordsOf (linesOf st2)).filter (fun o => !tickerEq (dget o "ticker") t)
      = (recordsOf (linesOf st)).filter (fun o => !tickerEq (dget o "ticker") t) ∧
    (∀ u, u ≠ t → u ≠ "" → load (some u) st2 = load (some u) st) := by
  unfold save_and_replace at h
  cases hc : collectKept t (linesOf st) with
  | error e => rw [hc] at h; simp at h
  | ok kept =>
    rw [hc] at h
    simp only [Except.ok.injEq, Prod.mk.injEq] at h
    obtain ⟨hst2, hrec⟩ := h
    obtain ⟨hkeq, hobj⟩ := collectKept_ok t (linesOf st) kept hc
    subst hkeq
    subst hst2
    subst hrec
    refine ⟨rfl, ?_, ?_, ?_⟩
    · show ((recordsOf (keptLines t (linesOf st)
          ++ [FLine.val (.obj (mkRecord now t data price ts))])).filter _) = _
      unfold recordsOf
      rw [List.filterMap_append]
      show ((recordsOf (keptLines t (linesOf st))
          ++ [mkRecord now t data price ts]).filter _) = _
      rw [List.filter_append, recordsOf_keptLines, List.filter_filter]
      have hall : ∀ o : JObj,
          (tickerEq (dget o "ticker") t && !tickerEq (dget o "ticker") t) = false := by
        intro o
        cases tickerEq (dget o "ticker") t <;> rfl
      simp only [hall, Bool.false_eq_true, List.filter_false, List.nil_append]
      simp [dget_mkRecord_ticker, tickerEq]
    · show ((recordsOf (keptLines t (linesOf st)
          ++ [FLine.val (.obj (mkRecord now t data price ts))])).filter _) = _
      unfold recordsOf
      rw [List.filterMap_append]
      show ((recordsOf (keptLines t (linesOf st))
          ++ [mkRecord now t data price ts]).filter _) = _
      rw [List.filter_append, recordsOf_keptLines, List.filter_filter]
      simp only [Bool.and_self]
      simp [dget_mkRecord_ticker, tickerEq, recordsOf]
    · intro u hut hu
      obtain ⟨rs, hrs⟩ := loadLines_ok_of_obj (some u) (linesOf st) hobj
      have hkl : loadLines (some u) (keptLines t (linesOf st))
          = loadLines (some u) (linesOf st) :=
        loadLines_keptLines u t hut hu htt (linesOf st) hobj
      have hnew : loadLines (some u) [FLine.val (.obj (mkRecord now t data price ts))]
          = .ok [] := by
        have hpn : processRecord (some u) (mkRecord now t data price ts) = none :=
          processRecord_none_of_other u t _ hut hu htt (dget_mkRecord_ticker now t data price ts)
        simp [loadLines, loadLine, hpn]
      have happ : loadLines (some u) (keptLines t (linesOf st)
          ++ [FLine.val (.obj (mkRecord now t data price ts))]) = .ok (rs ++ []) :=
        loadLines_append (some u) _ _ rs [] (hkl.trans hrs) hnew
      rw [load_eq_linesOf, load_eq_linesOf]
      show (loadLines (some u) (keptLines t (linesOf st)
          ++ [FLine.val (.obj (mkRecord now t data price ts))])).map List.reverse = _
      rw [happ, hrs]
      simp

/-- Witness for C2 at a concrete two-record store: replacing AAPL keeps the
MSFT record, load for MSFT is unchanged, and the AAPL records of the new log
are exactly the new record. -/
theorem c2_replace_semantics_witness :
    load (some "MSFT") (some [FLine.val (.obj exRecM), FLine.val (.obj c10new)])
      = load (some "MSFT") (some [FLine.val (.obj exRecM), FLine.val (.obj exRecA)]) ∧
    (recordsOf [FLine.val (.obj exRecM), FLine.val (.obj c10new)]).filter
      (fun o => tickerEq (dget o "ticker") "AAPL") = [c10new] := by
  have h := c2_replace_semantics (some [FLine.val (.obj exRecM), FLine.val (.obj exRecA)])
    "t2" "AAPL" [("ticker", JVal.str "AAPL")] none none
    (some [FLine.val (.obj exRecM), FLine.val (.obj c10new)]) c10new
    (by decide) rfl
  exact ⟨h.2.2.2 "MSFT" (by decide) (by decide), h.2.1⟩

/-- C6: save constructs the record (timestamp defaulting to the current
time when omitted), appends it as exactly one new line leaving every
existing line unchanged, and returns it; consequently two appends for the
same ticker from an empty store load back newest first, both preserved. -/
theorem c6_append_semantics :
    (∀ (st : StoreState) (now t : String) (d : JObj) (p : Option JVal) (ts : Option String),
      save st now t d p ts
        = (some (linesOf st ++ [.val (.obj (mkRecord now t d p ts))]), mkRecord now t d p ts)) ∧
    (∀ (now t : String) (d : JObj) (p : Option JVal),
      dget (mkRecord now t d p none) "timestamp" = some (.str now)) ∧
    (∀ (now1 now2 t : String) (d1 d2 : JObj) (p1 p2 : Option JVal) (ts1 ts2 : Option String),
      t ≠ "" → optTruthy (dget d1 "ticker") = true → optTruthy (dget d2 "ticker") = true →
      load (some t) (save (save none now1 t d1 p1 ts1).1 now2 t d2 p2 ts2).1
        = .ok [mkRecord now2 t d2 p2 ts2, mkRecord now1 t d1 p1 ts1]) := by
  refine ⟨fun st now t d p ts => rfl, fun now t d p => rfl, ?_⟩
  intro now1 now2 t d1 d2 p1 p2 ts1 ts2 htt h1 h2
  show (loadLines (some t) [FLine.val (.obj (mkRecord now1 t d1 p1 ts1)),
      FLine.val (.obj (mkRecord now2 t d2 p2 ts2))]).map List.reverse = _
  simp only [loadLines, loadLine,
    processRecord_mkRecord now1 t d1 p1 ts1 htt h1,
    processRecord_mkRecord now2 t d2 p2 ts2 htt h2]
  rfl

/-- Witness for C6 at concrete data: two appends for AAPL from the empty
store load back newest first. -/
theorem c6_append_semantics_witness :
    load (some "AAPL")
      (save (save none "t0" "AAPL" [("ticker", JVal.str "AAPL")] none none).1
        "t1" "AAPL" [("ticker", JVal.str "AAPL"), ("score", JVal.int 2)] none none).1
      = .ok [mkRecord "t1" "AAPL" [("ticker", JVal.str "AAPL"), ("score", JVal.int 2)] none none,
          mkRecord "t0" "AAPL" [("ticker", JVal.str "AAPL")] none none] := by
  exact c6_append_semantics.2.2 "t0" "t1" "AAPL"
    [("ticker", JVal.str "AAPL")] [("ticker", JVal.str "AAPL"), ("score", JVal.int 2)]
    none none none none (by decide) rfl rfl

/-- C7: load never aborts on bad lines: removing or adding a malformed line
never changes the result of load on any file state and any filter; a missing
backing file yields the empty sequence; a file with one corrupt line between
two valid record lines loads exactly the two records. -/
theorem c7_load_skips_corruption :
    (∀ (tf : Option String) (pre post : List FLine),
      load tf (some (pre ++ FLine.malformed :: post)) = load tf (some (pre ++ post))) ∧
    (∀ tf : Option String, load tf none = .ok []) ∧
    load none (some [FLine.val (.obj exRecA), FLine.malformed, FLine.val (.obj exRecM)])
      = .ok [exRecM, exRecA] ∧
    [exRecM, exRecA].length = 2 := by
  refine ⟨?_, fun tf => rfl, rfl, rfl⟩
  intro tf pre post
  show (loadLines tf (pre ++ FLine.malformed :: post)).map List.reverse
      = (loadLines tf (pre ++ post)).map List.reverse
  congr 1
  induction pre with
  | nil => rfl
  | cons l rest ih =>
    simp only [List.cons_append, loadLines, List.append_eq]
    rw [ih]

/-- C9: get_latest returns absent exactly when load returns the empty
sequence, and otherwise returns the first element of load. -/
theorem c9_get_latest_head (tf : Option String) (st : StoreState) (l : List JObj)
    (h : load tf st = .ok l) :
    (get_latest tf st = .ok none ↔ l = []) ∧
    (∀ (r : JObj) (rest : List JObj), l = r :: rest → get_latest tf st = .ok (some r)) := by
  unfold get_latest
  rw [h]
  refine ⟨⟨?_, ?_⟩, ?_⟩
  · intro he
    cases l with
    | nil => rfl
    | cons a b => simp at he
  · intro he
    subst he
    rfl
  · intro r rest he
    subst he
    rfl

/-- Witness for C9: the empty store yields absent; a one-record store yields
that record. -/
theorem c9_get_latest_head_witness :
    get_latest none (none : StoreState) = .ok none ∧
    get_latest (some "AAPL") (some [FLine.val (.obj exRecA)]) = .ok (some exRecA) := by
  constructor
  · exact (c9_get_latest_head none none [] rfl).1.mpr rfl
  · exact (c9_get_latest_head (some "AAPL") (some [FLine.val (.obj exRecA)]) [exRecA] rfl).2
      exRecA [] rfl

/-- C10: save_and_replace filters by the stored top-level ticker only, while
load cross-fills the top-level ticker from data.ticker before filtering: a
line with no top-level ticker but data.ticker AAPL survives replace(AAPL),
and load(AAPL) afterwards returns both that line (cross-filled) and the new
record. -/
theorem c10_replace_load_mismatch :
    dget orphanRec "ticker" = none ∧
    dget orphanRec "data"
      = some (.obj [("ticker", JVal.str "AAPL"), ("score", JVal.int 1)]) ∧
    save_and_replace (some [FLine.val (.obj orphanRec)]) "t2" "AAPL"
        [("ticker", JVal.str "AAPL")] none none
      = .ok (some [FLine.val (.obj orphanRec), FLine.val (.obj c10new)], c10new) ∧
    load (some "AAPL") (some [FLine.val (.obj orphanRec), FLine.val (.obj c10new)])
      = .ok [c10new, orphanFilled] ∧
    [c10new, orphanFilled].length = 2 := by
  exact ⟨rfl, rfl, rfl, rfl, rfl⟩

/-- C1 counterexample: the text below contains the syntactically valid JSON
object of the second conjunct interleaved with prose, yet parse_llm_json
fails on it: the greedy first-brace-to-last-brace substring swallows the
stray closing brace after the object and every stage fails. -/
theorem c1_extract_json_counterexample :
    ("Result: \x7b\"a\": 1\x7d also \x7d"
      = "Result: " ++ "\x7b\"a\": 1\x7d" ++ " also \x7d") ∧
    jsonLoadsL "\x7b\"a\": 1\x7d".data = .ok (JVal.obj [("a", JVal.int 1)]) ∧
    parse_llm_json "Result: \x7b\"a\": 1\x7d also \x7d"
      = .error ⟨"Result: \x7b\"a\": 1\x7d also \x7d", "Expecting value"⟩ := by
  exact ⟨rfl, rfl, rfl⟩

/-- C1 amended: the fallback stages are tried in a fixed deterministic order
preferring strict parsing over substring extraction: when the stripped text
itself parses, that value is returned; failing that, when the fence-stripped
cleaned text parses, that value is returned; failing that, when the greedy
first-opening-to-last-closing brace/bracket span parses, its value is
returned; and the spec's example returns its embedded object. (The
unconditional guarantee fails; see the counterexample.) -/
theorem c1_extract_json_ordered_stages :
    (∀ (s : String) (v : JVal),
      jsonLoadsL (rawOf s) = .ok v → parse_llm_json s = .ok v) ∧
    (∀ (s e : String) (v : JVal),
      jsonLoadsL (rawOf s) = .error e → jsonLoadsL (cleanedOf s) = .ok v →
      parse_llm_json s = .ok v) ∧
    (∀ (s e1 e2 : String) (c : List Char) (v : JVal),
      jsonLoadsL (rawOf s) = .error e1 → jsonLoadsL (cleanedOf s) = .error e2 →
      extractCandidate (cleanedOf s) = some c → jsonLoadsL c = .ok v →
      parse_llm_json s = .ok v) ∧
    parse_llm_json "Here is the result: \x7b\"a\": 1, \"b\": [1,2]\x7d Thanks"
      = .ok (JVal.obj [("a", JVal.int 1), ("b", JVal.arr [JVal.int 1, JVal.int 2])]) := by
  refine ⟨?_, ?_, ?_, rfl⟩
  · intro s v h
    unfold parse_llm_json
    rw [h]
  · intro s e v h1 h2
    unfold parse_llm_json
    rw [h1, h2]
  · intro s e1 e2 c v h1 h2 h3 h4
    unfold parse_llm_json
    rw [h1, h2]
    show stage45 (cleanedOf s) = Except.ok v
    unfold stage45
    rw [h3]
    show (match jsonLoadsL c with
      | Except.ok v => Except.ok v
      | Except.error _ => stage5 (cleanedOf s)) = Except.ok v
    rw [h4]

/-- Witness for C1 amended at concrete inputs: a pure JSON text (stage 1), a
fenced JSON text (stage 2-3), and the spec's prose-interleaved example
(stage 4). -/
theorem c1_extract_json_ordered_stages_witness :
    parse_llm_json " \x7b\"x\": 2\x7d " = .ok (JVal.obj [("x", JVal.int 2)]) ∧
    parse_llm_json "```json\n\x7b\"k\": 2\x7d\n```" = .ok (JVal.obj [("k", JVal.int 2)]) ∧
    parse_llm_json "Here is the result: \x7b\"a\": 1, \"b\": [1,2]\x7d Thanks"
      = .ok (JVal.obj [("a", JVal.int 1), ("b", JVal.arr [JVal.int 1, JVal.int 2])]) := by
  refine ⟨?_, ?_, ?_⟩
  · exact c1_extract_json_ordered_stages.1 " \x7b\"x\": 2\x7d "
      (JVal.obj [("x", JVal.int 2)]) rfl
  · exact c1_extract_json_ordered_stages.2.1 "```json\n\x7b\"k\": 2\x7d\n```"
      "Expecting value" (JVal.obj [("k", JVal.int 2)]) rfl rfl
  · exact c1_extract_json_ordered_stages.2.2.1
      "Here is the result: \x7b\"a\": 1, \"b\": [1,2]\x7d Thanks"
      "Expecting value" "Expecting value"
      ("\x7b\"a\": 1, \"b\": [1,2]\x7d".data)
      (JVal.obj [("a", JVal.int 1), ("b", JVal.arr [JVal.int 1, JVal.int 2])])
      rfl rfl rfl rfl

/-- C8: on every input on which all fallback stages fail, parse_llm_json
fails with the diagnostic error carrying the first 800 characters of the
cleaned text and the underlying parse error message; it never returns a
value for such input. -/
theorem c8_malformed_response (s : String) (e1 e2 : String)
    (h1 : jsonLoadsL (rawOf s) = .error e1)
    (h2 : jsonLoadsL (cleanedOf s) = .error e2)
    (h3 : candidateFails (cleanedOf s) = true) :
    parse_llm_json s = .error ⟨String.mk ((cleanedOf s).take 800), e2⟩ := by
  unfold parse_llm_json
  rw [h1, h2]
  show stage45 (cleanedOf s) = _
  unfold stage45
  unfold candidateFails at h3
  cases hc : extractCandidate (cleanedOf s) with
  | none =>
    show stage5 (cleanedOf s) = _
    unfold stage5
    rw [h2]
  | some c =>
    rw [hc] at h3
    have h3' : (match jsonLoadsL c with
      | Except.ok _ => false
      | Except.error _ => true) = true := h3
    cases hjc : jsonLoadsL c with
    | ok v => rw [hjc] at h3'; exact Bool.noConfusion h3'
    | error e =>
      show (match jsonLoadsL c with
        | Except.ok v => Except.ok v
        | Except.error _ => stage5 (cleanedOf s)) = _
      rw [hjc]
      show stage5 (cleanedOf s) = _
      unfold stage5
      rw [h2]

/-- Witness for C8 at the spec's example input: every stage fails on
plain prose and the function returns the diagnostic error. -/
theorem c8_malformed_response_witness :
    parse_llm_json "not json at all" = .error ⟨"not json at all", "Expecting value"⟩ :=
  c8_malformed_response "not json at all" "Expecting value" "Expecting value" rfl rfl rfl
